import Mathlib

/-!
Verification development for the pipeline shell in `myshell.c`.

The embedding models the token-level parsers (`parse_single_command`,
`parse_multiple_commands`, `slice_argv_from_vec`), the process launcher
(`launch_process`, `launch_process_chain`) as an explicit trace of file
descriptor actions, the `cd` builtin arm of `eval_builtin_cmds`, and the
per-line global parse context (`shell_read` reset + lexer tagging) used by
`shell_eval`.

Tokens are the token strings produced by the flex lexer; the C parser
classifies a token by its first character (`tok[0]`), so a token is a list
of characters and the first character of the empty token is the NUL
terminator, exactly as reading `tok[0]` of an empty C string would.

The C scan loops advance their index by one or two places per iteration
and stop once the index reaches the vector length, so each loop is given
`ts.length + 1` units of fuel, strictly more than the number of
iterations it can perform; the fuel-exhausted branch is unreachable from
the entry points.
-/

/-- A token as handed to the parser: its character data, NUL excluded. -/
abbrev Token : Type := List Char

/-- Shorthand for writing concrete tokens in examples and witnesses. -/
def tok (s : String) : Token := s.toList

/-- Reading `tok[0]` of the C token string: first character, NUL for the empty token. -/
def firstChar (t : Token) : Char := t.headD (Char.ofNat 0)

/-- A token the parser treats as a plain word: its first character is none of
the operator characters `|`, `<`, `>`, `&`. -/
def isWordTok (t : Token) : Bool :=
  !(firstChar t = '|' || firstChar t = '<' || firstChar t = '>' || firstChar t = '&')

/-- The constant `2^64`, the modulus of C `size_t` arithmetic on this platform. -/
def U64 : Nat := 2 ^ 64

/-- Subtraction of 1 in `size_t`: `idx - 1` where the C caller computes it in
an integer that is converted to (or already is) `size_t`, wrapping at 0. -/
def usub1 (n : Nat) : Nat := if n = 0 then U64 - 1 else n - 1

/-- The function `slice_argv_from_vec` (myshell.c:517): copies tokens `start_pos..end_pos`
into a fresh argv with one trailing NULL slot.  `len = (end_pos + 2 -
start_pos) * sizeof(char *)` is computed in `size_t`, so `end_pos =
SIZE_MAX` (from a wrapped `idx - 1`) gives one slot and zero copied
entries.  The returned list holds the copied entries; the NULL terminator
is the end of the list. -/
def slice_argv_from_vec (toks : List Token) (start_pos end_pos : Nat) : List Token :=
  (toks.drop start_pos).take ((end_pos + 2 - start_pos) % U64 - 1)

/-- The struct `command_t` (myshell.c:70) as built by `parse_single_command`: `argv` is
NULL (`none`) until assigned, `dest`/`src` are the output/input redirect
file tokens.  The per-command `is_bkg_proc` field is never written by the
program (the global flag is used instead), so it is omitted. -/
structure SingleCmd where
  argv : Option (List Token) := none
  dest : Option Token := none
  src : Option Token := none
deriving Repr, DecidableEq

/-- The token scan loop of `parse_single_command` (myshell.c:286-329).
State: the command being filled, `seen_command`, the `global_bkg_proc`
flag, and the loop index.  `none` is `PARSE_ERROR`; `some (cmd, bkg)` is
`PARSE_SUCCESS` with the filled command and the background flag. -/
def parseSingleLoop (ts : List Token) : Nat → SingleCmd → Bool → Bool → Nat →
    Option (SingleCmd × Bool)
  | 0, _, _, _, _ => none
  | fuel + 1, cmd, seen, bkg, idx =>
    if idx < ts.length then
      match firstChar (ts.getD idx []) with
      | '<' =>
        if idx + 1 = ts.length then none
        else if firstChar (ts.getD (idx + 1) []) = '>' ||
            firstChar (ts.getD (idx + 1) []) = '<' ||
            firstChar (ts.getD (idx + 1) []) = '|' then none
        else
          parseSingleLoop ts fuel
            { argv := if cmd.argv = none then
                some (slice_argv_from_vec ts 0 (usub1 idx)) else cmd.argv,
              dest := cmd.dest,
              src := some (ts.getD (idx + 1) []) } seen bkg (idx + 2)
      | '>' =>
        if idx + 1 = ts.length then none
        else if firstChar (ts.getD (idx + 1) []) = '>' ||
            firstChar (ts.getD (idx + 1) []) = '<' ||
            firstChar (ts.getD (idx + 1) []) = '|' then none
        else
          parseSingleLoop ts fuel
            { argv := if cmd.argv = none then
                some (slice_argv_from_vec ts 0 (usub1 idx)) else cmd.argv,
              dest := some (ts.getD (idx + 1) []),
              src := cmd.src } seen bkg (idx + 2)
      | '&' =>
        if idx + 1 ≠ ts.length then none
        else
          parseSingleLoop ts fuel
            { argv := if cmd.argv = none then
                some (slice_argv_from_vec ts 0 (usub1 idx)) else cmd.argv,
              dest := cmd.dest, src := cmd.src } seen true (idx + 1)
      | _ =>
        if idx + 1 = ts.length ∧ seen = false then
          parseSingleLoop ts fuel
            { argv := if cmd.argv = none then
                some (slice_argv_from_vec ts 0 idx) else cmd.argv,
              dest := cmd.dest, src := cmd.src } true bkg (idx + 1)
        else
          parseSingleLoop ts fuel cmd seen bkg (idx + 1)
    else
      some (cmd, bkg)

/-- The function `parse_single_command` (myshell.c:280): errors on an empty token vector,
otherwise runs the scan loop from index 0 on a zeroed `command_t`.  The
incoming `bkg` argument is the current value of `global_bkg_proc`, which
the loop can only set to `true`. -/
def parse_single_command (ts : List Token) (bkg : Bool) : Option (SingleCmd × Bool) :=
  if ts.length = 0 then none
  else parseSingleLoop ts (ts.length + 1) {} false bkg 0

/-- A finalized pipeline stage as pushed by `parse_multiple_commands`: every
`vec_push` there is immediately preceded by an `argv` assignment, so `argv`
is a plain list.  `dest`/`src` hold at most one output/input redirect each,
mirroring the single `dest`/`src` pointers of `command_t`. -/
structure Cmd where
  argv : List Token := []
  dest : Option Token := none
  src : Option Token := none
deriving Repr, DecidableEq

instance : Inhabited Cmd := ⟨{}⟩

/-- Result of `parse_multiple_commands`: `ub` marks an execution in which the
C code reads past the end of the token vector (the initial seek walks off
the vector when no `|`, `<`, `&` or `>` token exists); `perr` is
`PARSE_ERROR`; `ok` is `PARSE_SUCCESS` with the pushed command vector and
the `global_bkg_proc` flag. -/
inductive MultiResult
  | ub
  | perr
  | ok (cmds : List Cmd) (bkg : Bool)
deriving Repr, DecidableEq

/-- The per-stage scan loop of `parse_multiple_commands` (myshell.c:365-435).
State: accumulated command vector, `global_bkg_proc`, `command_start_idx`,
`seen_command`, and the loop index.  On loop exit a final command is pushed
when `seen_command` holds (myshell.c:428-434). -/
def parseMultiLoop (ts : List Token) : Nat → List Cmd → Bool → Nat → Bool → Nat →
    MultiResult
  | 0, _, _, _, _, _ => .ub
  | fuel + 1, acc, bkg, start, seen, idx =>
    if idx < ts.length then
      match firstChar (ts.getD idx []) with
      | '|' =>
        if seen = false then .perr
        else if idx + 1 = ts.length then .perr
        else if firstChar (ts.getD (idx + 1) []) = '<' ||
            firstChar (ts.getD (idx + 1) []) = '>' ||
            firstChar (ts.getD (idx + 1) []) = '&' then .perr
        else
          parseMultiLoop ts fuel
            (acc ++ [{ argv := slice_argv_from_vec ts start (usub1 idx) }])
            bkg (idx + 1) false (idx + 1)
      | '<' => .perr
      | '>' =>
        if seen = false then .perr
        else if idx + 1 = ts.length then .perr
        else if (List.range' idx (ts.length - 1 - idx)).any
            (fun j => firstChar (ts.getD j []) = '|') then .perr
        else if firstChar (ts.getD (idx + 1) []) = '<' ||
            firstChar (ts.getD (idx + 1) []) = '>' ||
            firstChar (ts.getD (idx + 1) []) = '&' then .perr
        else
          parseMultiLoop ts fuel
            (acc ++ [{ argv := slice_argv_from_vec ts start (usub1 idx),
                       dest := some (ts.getD (idx + 1) []) }])
            bkg start false (idx + 2)
      | '&' =>
        if idx + 1 ≠ ts.length then .perr
        else
          parseMultiLoop ts fuel
            (if seen then
              acc ++ [{ argv := slice_argv_from_vec ts start (usub1 idx) }] else acc)
            true start false (idx + 1)
      | _ =>
        parseMultiLoop ts fuel acc bkg (if seen then start else idx) true (idx + 1)
    else
      if seen then .ok (acc ++ [{ argv := slice_argv_from_vec ts start (usub1 idx) }]) bkg
      else .ok acc bkg

/-- The initial seek of `parse_multiple_commands` (myshell.c:340-349): the
index of the first token whose first character is `|`, `<`, `&` or `>`;
`none` when no such token exists, in which case the C loop reads past the
end of the vector. -/
def seekStop : List Token → Option Nat
  | [] => none
  | t :: rest =>
    if firstChar t = '|' || firstChar t = '<' || firstChar t = '&' || firstChar t = '>'
    then some 0
    else (seekStop rest).map (fun j => j + 1)

/-- The function `parse_multiple_commands` (myshell.c:333): seek the end of the first
command (a `>` encountered first is a parse error), slice its argv, consume
`< file` plus the anticipated pipe token when `idx + 3 < npos`, push the
first command, then run the per-stage loop. -/
def parse_multiple_commands (ts : List Token) (bkg : Bool) : MultiResult :=
  match seekStop ts with
  | none => .ub
  | some i =>
    if firstChar (ts.getD i []) = '>' then .perr
    else
      let argv0 := slice_argv_from_vec ts 0 (usub1 i)
      if firstChar (ts.getD i []) = '<' ∧ i + 3 < ts.length then
        parseMultiLoop ts (ts.length + 1)
          [{ argv := argv0, src := some (ts.getD (i + 1) []) }] bkg (i + 3) false (i + 3)
      else
        parseMultiLoop ts (ts.length + 1)
          [{ argv := argv0 }] bkg (i + 1) false (i + 1)

/-- The flag `PIPE_OUT` (myshell.c:171-175). -/
def PIPE_OUT : Nat := 1

/-- The flag `PIPE_IN` (myshell.c:171-175). -/
def PIPE_IN : Nat := 2

/-- One observable step of the child branch of `launch_process`
(myshell.c:478-508).  Pipe file descriptors live in the array `fd`; a slot
number is an index into that array (`fd[slot]`), kept as `Int` because the
C code computes `idx * 2 - 2` in `int` arithmetic. -/
inductive FdAction
  | redirectOut (f : Token)
  | dupToStdout (slot : Int)
  | redirectIn (f : Token)
  | dupToStdin (slot : Int)
  | closeSlot (slot : Int)
  | execCmd (argv : List Token)
deriving Repr, DecidableEq

/-- The child branch of `launch_process` (myshell.c:478-508) as the ordered
trace of its descriptor operations: output-redirect rebind, pipe stdout
dup (`fd[idx * 2 + 1]`), input-redirect rebind, pipe stdin dup
(`fd[idx * 2 - 2]`), closing `fd[0 .. 2 * global_num_pipes - 1]`, exec. -/
def launch_process_child_actions (argv : List Token) (dest src : Option Token)
    (options : Nat) (idx : Nat) (numPipes : Nat) : List FdAction :=
  (match dest with
   | some f => [FdAction.redirectOut f]
   | none => []) ++
  (if options &&& PIPE_OUT ≠ 0 then [FdAction.dupToStdout (2 * (idx : Int) + 1)] else []) ++
  (match src with
   | some f => [FdAction.redirectIn f]
   | none => []) ++
  (if options &&& PIPE_IN ≠ 0 then [FdAction.dupToStdin (2 * (idx : Int) - 2)] else []) ++
  ((List.range (2 * numPipes)).map (fun k => FdAction.closeSlot (Int.ofNat k))) ++
  [FdAction.execCmd argv]

/-- The sequence of `launch_process` calls made by `launch_process_chain`
(myshell.c:450-455), as `(options, idx)` pairs in call order: stage 0 with
`PIPE_OUT`, stages `1 .. n-2` with `PIPE_OUT | PIPE_IN`, and a final call
with `PIPE_IN` at the index where the middle loop stopped (`n - 1`, or `1`
when `n < 2` — for `n = 1` the C code reads `commands[1]` out of bounds). -/
def launch_process_chain_calls (n : Nat) : List (Nat × Nat) :=
  (PIPE_OUT, 0) ::
    ((List.range' 1 (n - 2)).map (fun i => (PIPE_OUT ||| PIPE_IN, i)) ++
      [(PIPE_IN, max 1 (n - 1))])

/-- The parent side of `launch_process_chain` after forking all stages
(myshell.c:456-458): it closes `fd[0 .. 2 * num_commands - 1]`. -/
def launch_process_chain_parent_closes (n : Nat) : List FdAction :=
  (List.range (n * 2)).map (fun k => FdAction.closeSlot (Int.ofNat k))

/-- The `fd` slot holding the read end of pipe `j`: `pipe(&fd[2 * j])` puts
the read end at `fd[2 * j]`. -/
def pipeReadSlot (j : Nat) : Int := 2 * (j : Int)

/-- The `fd` slot holding the write end of pipe `j`. -/
def pipeWriteSlot (j : Nat) : Int := 2 * (j : Int) + 1

/-- The slots a child duplicates onto stdin, in trace order. -/
def stdinDups : List FdAction → List Int
  | [] => []
  | FdAction.dupToStdin s :: rest => s :: stdinDups rest
  | _ :: rest => stdinDups rest

/-- The slots a child duplicates onto stdout, in trace order. -/
def stdoutDups : List FdAction → List Int
  | [] => []
  | FdAction.dupToStdout s :: rest => s :: stdoutDups rest
  | _ :: rest => stdoutDups rest

/-- The slots closed, in trace order. -/
def closedSlots : List FdAction → List Int
  | [] => []
  | FdAction.closeSlot s :: rest => s :: closedSlots rest
  | _ :: rest => closedSlots rest

/-- The parent-side return value of `launch_process` (myshell.c:510-514):
`-1` (`error`) when `fork` failed, otherwise the child pid. -/
def launch_process_ret (forkRes : Int) : Int :=
  if forkRes = -1 then -1 else forkRes

/-- The wait decision of the single-command branch of `shell_eval`
(myshell.c:254-262): in the foreground case the parent calls
`waitpid(pid, ...)` whenever `pid` is nonzero; in the background case no
wait happens.  `some p` means `waitpid` is called with first argument `p`. -/
def shell_eval_single_wait (pid : Int) (bkg : Bool) : Option Int :=
  if bkg then none
  else if pid ≠ 0 then some pid else none

/-- What the `CMD_CD` arm of `eval_builtin_cmds` decides to do, keyed on the
token count of the line (myshell.c:205-226): `npos == 1` is `cd` alone
(HOME / password-database fallback), `npos == 2` is `cd <dir>`, anything
else prints the usage message and does nothing. -/
inductive CdAction
  | chdirHome
  | chdirArg (path : Token)
  | usage
deriving Repr, DecidableEq

/-- The `switch (p_vec->npos)` of the `CMD_CD` arm (myshell.c:206-226). -/
def cd_action (ts : List Token) : CdAction :=
  match ts.length with
  | 1 => .chdirHome
  | 2 => .chdirArg (ts.getD 1 [])
  | _ => .usage

/-- What the cd arm reports: nothing, the usage message
(`ERROR: usage: cd <dir>`), or the OS error via `perror("ERROR: cd")`. -/
inductive CdReport
  | silent
  | usageErr
  | osErr
deriving Repr, DecidableEq

/-- Observable shell process state for the builtin: the working directory and
whether the shell process is still running. -/
structure ShellSt where
  cwd : Token
  alive : Bool
deriving Repr, DecidableEq

/-- The `CMD_CD` arm of `eval_builtin_cmds` (myshell.c:205-226) acting on the
shell state.  `home` is the directory obtained from `HOME` (or the
password-database fallback); `chdirOk` is the outcome of the `chdir`
system call, whose POSIX contract is that a failing call leaves the
working directory unchanged (it returns `-1` and sets `errno`).  The arm
never calls `exit`, so `alive` is preserved on every path. -/
def eval_builtin_cd (ts : List Token) (home : Token) (chdirOk : Bool)
    (st : ShellSt) : ShellSt × CdReport :=
  match cd_action ts with
  | .chdirHome =>
    if chdirOk then ({ st with cwd := home }, .silent) else (st, .osErr)
  | .chdirArg p =>
    if chdirOk then ({ st with cwd := p }, .silent) else (st, .osErr)
  | .usage => (st, .usageErr)

/-- The process-wide parse context of myshell.c:87-92: `global_num_commands`,
`global_num_builtins`, `global_builtin_idxs[CMD_EXIT]`,
`global_builtin_idxs[CMD_CD]`, `global_bkg_proc`, `global_num_pipes`. -/
structure Globals where
  num_commands : Nat
  num_builtins : Nat
  builtin_idx_exit : Int
  builtin_idx_cd : Int
  bkg_proc : Bool
  num_pipes : Nat
deriving Repr, DecidableEq

/-- The reset of `shell_read` (myshell.c:143-150) followed by lexing the line: the read
resets `global_num_commands` to 1, `global_num_builtins` to 0 and both
builtin indices to -1, then the lexer walks the line left to right,
incrementing `global_num_commands` at each `|` token and recording
`global_num_commands - 1` as the builtin index at each `cd` / `exit`
token (lexer rules, myshell.c:574-598).  `global_bkg_proc` and
`global_num_pipes` are not reset.  `lexer_step` is the effect of lexing
one token. -/
def lexer_step (g : Globals) (tk : Token) : Globals :=
  if tk = tok "cd" then
    { g with builtin_idx_cd := (g.num_commands : Int) - 1,
             num_builtins := g.num_builtins + 1 }
  else if tk = tok "exit" then
    { g with builtin_idx_exit := (g.num_commands : Int) - 1,
             num_builtins := g.num_builtins + 1 }
  else if tk = tok "|" then
    { g with num_commands := g.num_commands + 1 }
  else g

/-- The reset of `shell_read` followed by the lexer tagging pass. -/
def shell_read_lex (ts : List Token) (g : Globals) : Globals :=
  List.foldl lexer_step
    { g with num_commands := 1, num_builtins := 0,
             builtin_idx_exit := -1, builtin_idx_cd := -1 }
    ts

/-- The check `parse_builtin_cmds` (myshell.c:182-194): `true` iff it returns
`PARSE_SUCCESS`. -/
def parse_builtin_cmds (g : Globals) : Bool :=
  if g.num_builtins > 1 then false
  else if g.num_builtins = 1 ∧ g.num_commands > 1 then false
  else if g.builtin_idx_exit > 1 then false
  else if g.builtin_idx_cd > 1 then false
  else true

/-- The structural outcome of one `shell_eval` (myshell.c:235-278) on a line,
as far as parsing is concerned: what was recognized and, for launched
lines, the parsed command data and background flag that reach the
launcher. -/
inductive EvalResult
  | emptyLine
  | parseErr
  | builtinExit
  | builtinCd (act : CdAction)
  | builtinNone
  | single (c : SingleCmd) (bkg : Bool)
  | multi (cmds : List Cmd) (bkg : Bool)
  | multiUb
deriving Repr, DecidableEq

/-- The dispatch of `shell_eval` (myshell.c:235-278) up to the launch decision, threading the
global context: empty line short-circuit, builtin dispatch, then the
single- or multi-command parse chosen by `global_num_commands`.  After a
successful launch the background flag is consumed (`global_bkg_proc`
ends up false on both the wait and the background path);
`parse_single_command` zeroes `global_num_pipes` on entry and
`launch_process_chain` sets it to the command count. -/
def shell_eval_model (ts : List Token) (g : Globals) : EvalResult × Globals :=
  if ts.length = 0 then (.emptyLine, g)
  else if parse_builtin_cmds g ∧ g.num_builtins ≠ 0 then
    if g.builtin_idx_exit ≠ -1 then (.builtinExit, g)
    else if g.builtin_idx_cd ≠ -1 then (.builtinCd (cd_action ts), g)
    else (.builtinNone, g)
  else if ¬ parse_builtin_cmds g then (.parseErr, g)
  else if g.num_commands = 1 then
    match parse_single_command ts g.bkg_proc with
    | none => (.parseErr, { g with num_pipes := 0 })
    | some (c, b) => (.single c b, { g with num_pipes := 0, bkg_proc := false })
  else
    match parse_multiple_commands ts g.bkg_proc with
    | .ub => (.multiUb, g)
    | .perr => (.parseErr, g)
    | .ok cmds b => (.multi cmds b, { g with num_pipes := cmds.length, bkg_proc := false })

/-- One read-eval iteration of the main loop (myshell.c:121-126) on a fixed
line: `shell_read` resets the per-line context and lexes, `shell_eval`
parses and launches. -/
def read_eval_step (ts : List Token) (g : Globals) : EvalResult × Globals :=
  shell_eval_model ts (shell_read_lex ts g)

/-- A non-NULL argv that is non-empty and starts with a word token. -/
def GoodArgv (o : Option (List Token)) : Prop :=
  ∃ l, o = some l ∧ l ≠ [] ∧ isWordTok (l.headD []) = true

def GoodCmd (c : Cmd) : Prop :=
  c.argv ≠ [] ∧ isWordTok (c.argv.headD []) = true

/-- The parse-relevant projection of the global context: every field
`shell_eval` reads (`global_num_pipes` is only written). -/
def gRel (g : Globals) : Nat × Nat × Int × Int × Bool :=
  (g.num_commands, g.num_builtins, g.builtin_idx_exit, g.builtin_idx_cd, g.bkg_proc)

example : parse_single_command [tok "a", tok "b"] false =
    some ({ argv := some [tok "a", tok "b"] }, false) := by decide

example : parse_single_command [tok "a", tok "<", tok "f", tok ">", tok "g"] false =
    some ({ argv := some [tok "a"], dest := some (tok "g"), src := some (tok "f") }, false) := by
  decide

example : parse_single_command [tok "&"] false =
    some ({ argv := some [] }, true) := by decide

example : parse_single_command [tok "a", tok "&"] false =
    some ({ argv := some [tok "a"] }, true) := by decide

example : parse_single_command [tok "a", tok "&", tok "b"] false = none := by decide

example : parse_single_command [tok "a", tok "<"] false = none := by decide

example : parse_single_command [] false = none := by decide

example : parse_multiple_commands [tok "a", tok "|", tok "b", tok "|", tok "c"] false =
    .ok [{ argv := [tok "a"] }, { argv := [tok "b"] }, { argv := [tok "c"] }] false := by decide

example : parse_multiple_commands [tok "a", tok "|", tok "b", tok ">", tok "out"] false =
    .ok [{ argv := [tok "a"] }, { argv := [tok "b"], dest := some (tok "out") }] false := by
  decide

example : parse_multiple_commands [tok "a", tok ">", tok "out", tok "|", tok "b"] false =
    .perr := by decide

example : parse_multiple_commands [tok "|", tok "b"] false =
    .ok [{ argv := [] }, { argv := [tok "b"] }] false := by decide

example : parse_multiple_commands [tok "a", tok "|"] false =
    .ok [{ argv := [tok "a"] }] false := by decide

example : parse_multiple_commands [tok "a", tok "|", tok "&"] false =
    .ok [{ argv := [tok "a"] }] true := by decide

example : parse_multiple_commands [tok "a", tok "|", tok "b", tok ">", tok "|"] false =
    .ok [{ argv := [tok "a"] }, { argv := [tok "b"], dest := some (tok "|") }] false := by decide

example : parse_multiple_commands
      [tok "a", tok "<", tok "|", tok "<", tok "b", tok "|", tok "c"] false =
    .ok [{ argv := [tok "a"], src := some (tok "|") }, { argv := [tok "b"] },
         { argv := [tok "c"] }] false := by decide

example : parse_multiple_commands [tok "a", tok "<", tok "f", tok "|", tok "b"] false =
    .ok [{ argv := [tok "a"], src := some (tok "f") }, { argv := [tok "b"] }] false := by decide

example : parse_multiple_commands [tok "a", tok "|", tok "|", tok "b"] false = .perr := by decide

example : parse_multiple_commands [tok "a", tok "|", tok "<", tok "f"] false = .perr := by decide

example : parse_multiple_commands [tok "a", tok "b"] false = .ub := by decide

example : shell_eval_single_wait (launch_process_ret (-1)) false = some (-1) := by decide

example : eval_builtin_cd [tok "cd", tok "one", tok "two"] (tok "/home/u") true
    ⟨tok "/w", true⟩ = (⟨tok "/w", true⟩, .usageErr) := by decide

example : eval_builtin_cd [tok "cd", tok "dir"] (tok "/home/u") false
    ⟨tok "/w", true⟩ = (⟨tok "/w", true⟩, .osErr) := by decide

example :
    (read_eval_step [tok "a", tok "|", tok "b"] ⟨9, 4, 0, 1, false, 3⟩).1 =
      .multi [{ argv := [tok "a"] }, { argv := [tok "b"] }] false := by decide

example :
    (read_eval_step [tok "cd", tok "x"] ⟨9, 4, 0, 1, false, 3⟩).1 =
      .builtinCd (.chdirArg (tok "x")) := by decide

example :
    (read_eval_step [tok "cd", tok "|", tok "b"] ⟨1, 0, -1, -1, false, 0⟩).1 =
      .parseErr := by decide

/-- C3 counterexample: the token sequence `| b` contains a `|` that is not
preceded by any WORD token, yet `parse_multiple_commands` succeeds (the
initial seek consumes the `|` without validation, and the wrapped
`slice_argv_from_vec(0, 0 - 1)` produces an empty first argv). -/
theorem c3_cex :
    parse_multiple_commands [tok "|", tok "b"] false =
      MultiResult.ok [{ argv := [] }, { argv := [tok "b"] }] false ∧
    firstChar (tok "|") = '|' := by decide

/-- C3 (amended): a `|` token examined by the per-stage scan loop of
`parse_multiple_commands` is validated exactly as the claim says: if
`seen_command` is false (no WORD since the last stage boundary), or the
`|` is the last token, or the following token starts with `<`, `>` or
`&`, the parse returns `PARSE_ERROR`.  The `|` that terminates the first
stage segment is consumed by the initial seek without this validation. -/
theorem c3_pipe_loop_validation (ts : List Token) (fuel idx start : Nat) (acc : List Cmd)
    (bkg seen : Bool) (h : idx < ts.length)
    (hp : firstChar (ts.getD idx []) = '|')
    (hbad : seen = false ∨ idx + 1 = ts.length ∨
      firstChar (ts.getD (idx + 1) []) = '<' ∨ firstChar (ts.getD (idx + 1) []) = '>' ∨
      firstChar (ts.getD (idx + 1) []) = '&') :
    parseMultiLoop ts (fuel + 1) acc bkg start seen idx = MultiResult.perr := by
  simp only [parseMultiLoop, if_pos h, hp]
  simp only [List.getD_eq_getElem?_getD] at hbad
  rcases hbad with hb | hb | hb | hb | hb <;> simp [hb]

/-- C3 witness: the scan loop rejects a trailing `|` (line `a | b |`, loop
at the final `|`). -/
theorem c3_pipe_loop_validation_witness :
    parseMultiLoop [tok "a", tok "|", tok "b", tok "|"] 1 [{ argv := [tok "a"] }] false 2
      true 3 = MultiResult.perr :=
  c3_pipe_loop_validation [tok "a", tok "|", tok "b", tok "|"] 0 3 2 [{ argv := [tok "a"] }]
    false true (by decide) (by decide) (Or.inr (Or.inl (by decide)))

/-- C4 counterexample: in `a | b > |` the `>` token (index 3) is followed
later by a `|` token (index 4), yet `parse_multiple_commands` succeeds:
the look-ahead scan stops at `npos - 1`, so a `|` in the final position
escapes it and is consumed as the redirect filename. -/
theorem c4_cex :
    parse_multiple_commands [tok "a", tok "|", tok "b", tok ">", tok "|"] false =
      MultiResult.ok
        [{ argv := [tok "a"] }, { argv := [tok "b"], dest := some (tok "|") }] false ∧
    firstChar ([tok "a", tok "|", tok "b", tok ">", tok "|"].getD 3 []) = '>' ∧
    firstChar ([tok "a", tok "|", tok "b", tok ">", tok "|"].getD 4 []) = '|' := by decide

/-- C4 (amended): `a | b > out` parses to two Commands, the second with
output redirect `out`; and whenever the per-stage scan loop of
`parse_multiple_commands` processes a `>` token as a redirect operator
with some `|` token occurring after it at any position other than the
final one, the parse returns `PARSE_ERROR`.  A `|` in the final position
(consumed as the redirect filename), or a `>` skipped by the first-stage
`< file` shortcut or consumed as its filename, escapes this check. -/
theorem c4_output_redirect_rules :
    (parse_multiple_commands [tok "a", tok "|", tok "b", tok ">", tok "out"] false =
      MultiResult.ok
        [{ argv := [tok "a"] }, { argv := [tok "b"], dest := some (tok "out") }] false) ∧
    (∀ (ts : List Token) (fuel idx start j : Nat) (acc : List Cmd) (bkg seen : Bool)
      (h : idx < ts.length), firstChar (ts.getD idx []) = '>' →
      idx < j → j + 1 < ts.length → firstChar (ts.getD j []) = '|' →
      parseMultiLoop ts (fuel + 1) acc bkg start seen idx = MultiResult.perr) := by
  refine ⟨by decide, ?_⟩
  intro ts fuel idx start j acc bkg seen h hg hij hjl hj
  simp only [parseMultiLoop, if_pos h, hg]
  have hany : ((List.range' idx (ts.length - 1 - idx)).any
      fun k => decide (firstChar (ts.getD k []) = '|')) = true := by
    refine List.any_eq_true.mpr ⟨j, ?_, by simp only [decide_eq_true_eq]; exact hj⟩
    refine List.mem_range'_1.mpr ⟨by omega, by omega⟩
  cases seen with
  | false => simp
  | true =>
    rw [if_neg (by simp)]
    by_cases he : idx + 1 = ts.length
    · rw [if_pos he]
    · rw [if_neg he, if_pos hany]

/-- C4 witness: the scan loop rejects `a > b | c` at the `>` (index 1),
whose later `|` sits at index 3, before the final token. -/
theorem c4_output_redirect_rules_witness :
    parseMultiLoop [tok "a", tok ">", tok "b", tok "|", tok "c"] 1 [] false 0 true 1 =
      MultiResult.perr :=
  c4_output_redirect_rules.2 [tok "a", tok ">", tok "b", tok "|", tok "c"] 0 1 0 3 [] false
    true (by decide) (by decide) (by decide) (by decide) (by decide)

/-- C5 counterexample: in `a < | < b | c` the `<` at index 3 lies after the
`|` at index 2, i.e. in a stage segment other than the first, yet
`parse_multiple_commands` succeeds: the first-stage `< file` shortcut
consumes the `|` at index 2 as the input filename and blindly skips index
3 as the "anticipated pipe". -/
theorem c5_cex :
    parse_multiple_commands
        [tok "a", tok "<", tok "|", tok "<", tok "b", tok "|", tok "c"] false =
      MultiResult.ok [{ argv := [tok "a"], src := some (tok "|") },
        { argv := [tok "b"] }, { argv := [tok "c"] }] false ∧
    firstChar ([tok "a", tok "<", tok "|", tok "<", tok "b", tok "|", tok "c"].getD 2 []) =
      '|' ∧
    firstChar ([tok "a", tok "<", tok "|", tok "<", tok "b", tok "|", tok "c"].getD 3 []) =
      '<' := by decide

/-- C5 (amended): every `<` token that the per-stage scan loop of
`parse_multiple_commands` reaches yields `PARSE_ERROR` unconditionally
(myshell.c:382-383); only a `<` consumed or skipped by the first-stage
`< file` shortcut, within the tokens the initial seek accounts to the
first stage, escapes the rule. -/
theorem c5_loop_input_redirect_error (ts : List Token) (fuel idx start : Nat)
    (acc : List Cmd) (bkg seen : Bool) (h : idx < ts.length)
    (hlt : firstChar (ts.getD idx []) = '<') :
    parseMultiLoop ts (fuel + 1) acc bkg start seen idx = MultiResult.perr := by
  simp only [parseMultiLoop, if_pos h, hlt]

/-- C5 witness: the scan loop rejects the `<` of `a | <`. -/
theorem c5_loop_input_redirect_error_witness :
    parseMultiLoop [tok "a", tok "|", tok "<"] 1 [] false 2 false 2 = MultiResult.perr :=
  c5_loop_input_redirect_error [tok "a", tok "|", tok "<"] 0 2 2 [] false false (by decide)
    (by decide)

/-- C6 counterexample: `parse_single_command` succeeds on the lone token `&`
with an empty argv (only the NULL terminator): the finalized command has
no `argv[0]` at all, because `slice_argv_from_vec(0, 0 - 1)` wraps in
`size_t` and copies zero entries. -/
theorem c6_cex :
    parse_single_command [tok "&"] false = some ({ argv := some [] }, true) := by decide

/-- C8 counterexample: `a &` contains zero pipe operators and zero redirect
operators, but parsing sets the background flag to `true`, not `false` as
claimed. -/
theorem c8_cex :
    parse_single_command [tok "a", tok "&"] false =
      some ({ argv := some [tok "a"] }, true) ∧
    firstChar (tok "a") ≠ '|' ∧ firstChar (tok "a") ≠ '<' ∧ firstChar (tok "a") ≠ '>' ∧
    firstChar (tok "&") ≠ '|' ∧ firstChar (tok "&") ≠ '<' ∧ firstChar (tok "&") ≠ '>' := by
  decide

/-- C7: the `cd` arm of `eval_builtin_cmds` with two or more arguments
(token count ≥ 3) reports the usage error and leaves the shell state —
working directory included — untouched; when the `chdir` call fails the
OS error is reported and the state is likewise untouched; and no path of
the arm terminates the shell (`alive` is preserved). -/
theorem c7_cd_error_handling (ts : List Token) (home : Token) (st : ShellSt) :
    (∀ chdirOk, 3 ≤ ts.length →
      eval_builtin_cd ts home chdirOk st = (st, CdReport.usageErr)) ∧
    (ts.length = 1 ∨ ts.length = 2 →
      eval_builtin_cd ts home false st = (st, CdReport.osErr)) ∧
    (∀ chdirOk, (eval_builtin_cd ts home chdirOk st).1.alive = st.alive) := by
  refine ⟨?_, ?_, ?_⟩
  · intro chdirOk h3
    rcases hl : ts.length with _ | _ | _ | m
    · omega
    · omega
    · omega
    · simp [eval_builtin_cd, cd_action, hl]
  · rintro (hl | hl) <;> simp [eval_builtin_cd, cd_action, hl]
  · intro chdirOk
    rcases hl : ts.length with _ | _ | _ | m <;>
      simp [eval_builtin_cd, cd_action, hl] <;> split <;> simp

/-- C7 witness: `cd one two` reports usage and changes nothing; a failing
`chdir` for `cd dir` reports the OS error and changes nothing. -/
theorem c7_cd_error_handling_witness :
    eval_builtin_cd [tok "cd", tok "one", tok "two"] (tok "/h") true ⟨tok "/w", true⟩ =
      (⟨tok "/w", true⟩, CdReport.usageErr) ∧
    eval_builtin_cd [tok "cd", tok "dir"] (tok "/h") false ⟨tok "/w", true⟩ =
      (⟨tok "/w", true⟩, CdReport.osErr) :=
  ⟨(c7_cd_error_handling [tok "cd", tok "one", tok "two"] (tok "/h")
      ⟨tok "/w", true⟩).1 true (by decide),
   (c7_cd_error_handling [tok "cd", tok "dir"] (tok "/h")
      ⟨tok "/w", true⟩).2.1 (Or.inr (by decide))⟩

/-- C10: the foreground single-command branch of `shell_eval` calls
`waitpid(pid, ...)` for every nonzero return of `launch_process`, and
`launch_process` returns `-1` when `fork` fails, so a failed fork makes
the parent call `waitpid` with process id `-1` — a wait on an arbitrary
child — instead of skipping the wait. -/
theorem c10_wait_on_fork_failure :
    (∀ pid : Int, shell_eval_single_wait pid false =
      if pid = 0 then none else some pid) ∧
    launch_process_ret (-1) = -1 ∧
    shell_eval_single_wait (launch_process_ret (-1)) false = some (-1) := by
  refine ⟨?_, by decide, by decide⟩
  intro pid
  simp only [shell_eval_single_wait, Bool.false_eq_true, if_false, ne_eq, ite_not]

/-- The extractor `stdinDups` distributes over trace concatenation. -/
theorem stdinDups_append (l1 l2 : List FdAction) :
    stdinDups (l1 ++ l2) = stdinDups l1 ++ stdinDups l2 := by
  induction l1 with
  | nil => rfl
  | cons a rest ih => cases a <;> simp [stdinDups, ih]

/-- The extractor `stdoutDups` distributes over trace concatenation. -/
theorem stdoutDups_append (l1 l2 : List FdAction) :
    stdoutDups (l1 ++ l2) = stdoutDups l1 ++ stdoutDups l2 := by
  induction l1 with
  | nil => rfl
  | cons a rest ih => cases a <;> simp [stdoutDups, ih]

/-- The extractor `closedSlots` distributes over trace concatenation. -/
theorem closedSlots_append (l1 l2 : List FdAction) :
    closedSlots (l1 ++ l2) = closedSlots l1 ++ closedSlots l2 := by
  induction l1 with
  | nil => rfl
  | cons a rest ih => cases a <;> simp [closedSlots, ih]

/-- A run of `closeSlot` actions contributes no stdin duplications. -/
theorem stdinDups_closes (l : List Nat) :
    stdinDups (l.map (fun k => FdAction.closeSlot (Int.ofNat k))) = [] := by
  induction l with
  | nil => rfl
  | cons a rest ih => simp only [List.map_cons, stdinDups]; exact ih

/-- A run of `closeSlot` actions contributes no stdout duplications. -/
theorem stdoutDups_closes (l : List Nat) :
    stdoutDups (l.map (fun k => FdAction.closeSlot (Int.ofNat k))) = [] := by
  induction l with
  | nil => rfl
  | cons a rest ih => simp only [List.map_cons, stdoutDups]; exact ih

/-- A run of `closeSlot` actions closes exactly its slots. -/
theorem closedSlots_closes (l : List Nat) :
    closedSlots (l.map (fun k => FdAction.closeSlot (Int.ofNat k))) =
      l.map (fun k => Int.ofNat k) := by
  induction l with
  | nil => rfl
  | cons a rest ih => simp only [List.map_cons, closedSlots]; rw [ih]

/-- The stdin duplications performed by a `launch_process` child: exactly
`dup2(fd[idx * 2 - 2], STDIN_FILENO)` when `PIPE_IN` is set, nothing
otherwise. -/
theorem stdinDups_child (argv : List Token) (d s : Option Token) (o i np : Nat) :
    stdinDups (launch_process_child_actions argv d s o i np) =
      (if o &&& PIPE_IN ≠ 0 then [2 * (i : Int) - 2] else []) := by
  unfold launch_process_child_actions
  rw [stdinDups_append, stdinDups_append, stdinDups_append, stdinDups_append,
    stdinDups_append, stdinDups_closes]
  cases d <;> cases s <;> by_cases ho : o &&& PIPE_OUT = 0 <;>
    by_cases hin : o &&& PIPE_IN = 0 <;> simp [stdinDups, ho, hin]

/-- The stdout duplications performed by a `launch_process` child: exactly
`dup2(fd[idx * 2 + 1], STDOUT_FILENO)` when `PIPE_OUT` is set. -/
theorem stdoutDups_child (argv : List Token) (d s : Option Token) (o i np : Nat) :
    stdoutDups (launch_process_child_actions argv d s o i np) =
      (if o &&& PIPE_OUT ≠ 0 then [2 * (i : Int) + 1] else []) := by
  unfold launch_process_child_actions
  rw [stdoutDups_append, stdoutDups_append, stdoutDups_append, stdoutDups_append,
    stdoutDups_append, stdoutDups_closes]
  cases d <;> cases s <;> by_cases ho : o &&& PIPE_OUT = 0 <;>
    by_cases hin : o &&& PIPE_IN = 0 <;> simp [stdoutDups, ho, hin]

/-- The options/index pair `launch_process_chain` uses for stage `i` of an
`n`-stage pipeline, `2 ≤ n`: stage 0 gets `PIPE_OUT`, the last stage gets
`PIPE_IN`, interior stages get both, and the array index passed is always
the stage number. -/
theorem chain_calls_getD (n i : Nat) (hn : 2 ≤ n) (hi : i < n) :
    (launch_process_chain_calls n).getD i (0, 0) =
      (if i = 0 then (PIPE_OUT, 0)
       else if i = n - 1 then (PIPE_IN, n - 1)
       else (PIPE_OUT ||| PIPE_IN, i)) := by
  unfold launch_process_chain_calls
  cases i with
  | zero => simp
  | succ i =>
    rw [List.getD_cons_succ, List.getD_eq_getElem?_getD, List.getElem?_append]
    by_cases hlt : i < n - 2
    · rw [if_pos (by simp [List.length_range']; omega)]
      rw [List.getElem?_map, List.getElem?_range' _ _ (by omega)]
      have h1 : i + 1 ≠ 0 := by omega
      have h2 : i + 1 ≠ n - 1 := by omega
      simp [h1, h2, Nat.add_comm 1 i]
    · rw [if_neg (by simp [List.length_range']; omega)]
      have hlen : (List.map (fun i => (PIPE_OUT ||| PIPE_IN, i))
          (List.range' 1 (n - 2))).length = n - 2 := by
        simp [List.length_range']
      have hi2 : i - (List.map (fun i => (PIPE_OUT ||| PIPE_IN, i))
          (List.range' 1 (n - 2))).length = 0 := by
        rw [hlen]; omega
      have hmax : max 1 (n - 1) = n - 1 := by omega
      have h1 : i + 1 ≠ 0 := by omega
      have h2 : i + 1 = n - 1 := by omega
      have h3 : n - 1 ≠ 0 := by omega
      rw [hi2]
      simp [hmax, h1, h2, h3]

/-- The trace of a `launch_process` child always ends in its `exec`, and the
closes preceding the exec cover exactly slots `fd[0] .. fd[2 * np - 1]`
where `np` is `global_num_pipes`. -/
theorem closedSlots_child (argv : List Token) (d s : Option Token) (o i np : Nat) :
    ∃ pre, launch_process_child_actions argv d s o i np =
        pre ++ [FdAction.execCmd argv] ∧
      closedSlots pre = (List.range (2 * np)).map (fun k => Int.ofNat k) := by
  refine ⟨(match d with | some f => [FdAction.redirectOut f] | none => []) ++
    ((if o &&& PIPE_OUT ≠ 0 then [FdAction.dupToStdout (2 * (i : Int) + 1)] else []) ++
    ((match s with | some f => [FdAction.redirectIn f] | none => []) ++
    ((if o &&& PIPE_IN ≠ 0 then [FdAction.dupToStdin (2 * (i : Int) - 2)] else []) ++
    ((List.range (2 * np)).map (fun k => FdAction.closeSlot (Int.ofNat k)))))), ?_, ?_⟩
  · simp [launch_process_child_actions, List.append_assoc]
  · rw [closedSlots_append, closedSlots_append, closedSlots_append, closedSlots_append,
      closedSlots_closes]
    cases d <;> cases s <;> by_cases ho : o &&& PIPE_OUT = 0 <;>
      by_cases hin2 : o &&& PIPE_IN = 0 <;> simp [closedSlots, ho, hin2]

/-- C1: for every pipeline of `n ≥ 2` commands launched by
`launch_process_chain`, stage `i`'s child duplicates `fd[i * 2 - 2]` — the
read end of the pipe written by stage `i - 1` — onto stdin exactly when
`i ≥ 1`, and duplicates `fd[i * 2 + 1]` — the write end of pipe `i` —
onto stdout exactly when `i < n - 1`; the first stage performs no piped
stdin rebind and the last stage no piped stdout rebind.  Stage `i - 1`'s
stdout slot and stage `i`'s stdin slot are the two ends of the same pipe
`i - 1`, since `pipe(&fd[2 * (i - 1)])` put its read end at
`fd[2 * (i - 1)] = fd[i * 2 - 2]`. -/
theorem c1_pipeline_wiring (cmds : List Cmd) (hn : 2 ≤ cmds.length) (i : Nat)
    (hi : i < cmds.length) :
    stdinDups (launch_process_child_actions (cmds.getD i default).argv
        (cmds.getD i default).dest (cmds.getD i default).src
        ((launch_process_chain_calls cmds.length).getD i (0, 0)).1
        ((launch_process_chain_calls cmds.length).getD i (0, 0)).2 cmds.length) =
      (if i = 0 then [] else [pipeReadSlot (i - 1)]) ∧
    stdoutDups (launch_process_child_actions (cmds.getD i default).argv
        (cmds.getD i default).dest (cmds.getD i default).src
        ((launch_process_chain_calls cmds.length).getD i (0, 0)).1
        ((launch_process_chain_calls cmds.length).getD i (0, 0)).2 cmds.length) =
      (if i = cmds.length - 1 then [] else [pipeWriteSlot i]) := by
  rw [chain_calls_getD cmds.length i hn hi]
  by_cases h0 : i = 0
  · subst h0
    rw [if_pos rfl, stdinDups_child, stdoutDups_child]
    have hlast : ¬(0 = cmds.length - 1) := by omega
    constructor
    · rw [if_neg (by decide : ¬(PIPE_OUT &&& PIPE_IN ≠ 0)), if_pos rfl]
    · rw [if_pos (by decide : PIPE_OUT &&& PIPE_OUT ≠ 0), if_neg hlast]
      simp [pipeWriteSlot]
  · by_cases hl : i = cmds.length - 1
    · rw [if_neg h0, if_pos hl, stdinDups_child, stdoutDups_child]
      constructor
      · rw [if_pos (by decide : PIPE_IN &&& PIPE_IN ≠ 0), if_neg h0]
        simp only [pipeReadSlot, List.cons.injEq, and_true]
        omega
      · rw [if_neg (by decide : ¬(PIPE_IN &&& PIPE_OUT ≠ 0)), if_pos hl]
    · rw [if_neg h0, if_neg hl, stdinDups_child, stdoutDups_child]
      constructor
      · rw [if_pos (by decide : (PIPE_OUT ||| PIPE_IN) &&& PIPE_IN ≠ 0), if_neg h0]
        simp only [pipeReadSlot, List.cons.injEq, and_true]
        omega
      · rw [if_pos (by decide : (PIPE_OUT ||| PIPE_IN) &&& PIPE_OUT ≠ 0), if_neg hl]
        simp [pipeWriteSlot]

/-- C1 witness: in a three-stage pipeline the middle stage reads pipe 0's
read end (`fd[0]`) and writes pipe 1's write end (`fd[3]`). -/
theorem c1_pipeline_wiring_witness :
    stdinDups (launch_process_child_actions [tok "b"] none none
        ((launch_process_chain_calls 3).getD 1 (0, 0)).1
        ((launch_process_chain_calls 3).getD 1 (0, 0)).2 3) = [pipeReadSlot 0] ∧
    stdoutDups (launch_process_child_actions [tok "b"] none none
        ((launch_process_chain_calls 3).getD 1 (0, 0)).1
        ((launch_process_chain_calls 3).getD 1 (0, 0)).2 3) = [pipeWriteSlot 1] := by
  have h := c1_pipeline_wiring
    [{ argv := [tok "a"] }, { argv := [tok "b"] }, { argv := [tok "c"] }] (by decide) 1
    (by decide)
  simpa using h

/-- C2: every forked child of an `n`-stage `launch_process_chain` closes all
`2 * n` pipe descriptor slots `fd[0] .. fd[2n - 1]` before its `exec`
action (the exec is the final action of the child trace), and the parent,
after forking all stages, closes the same slots `fd[0] .. fd[2n - 1]`
itself. -/
theorem c2_close_discipline (cmds : List Cmd) (hn : 2 ≤ cmds.length) (i : Nat)
    (hi : i < cmds.length) :
    (∃ pre, launch_process_child_actions (cmds.getD i default).argv
        (cmds.getD i default).dest (cmds.getD i default).src
        ((launch_process_chain_calls cmds.length).getD i (0, 0)).1
        ((launch_process_chain_calls cmds.length).getD i (0, 0)).2 cmds.length =
        pre ++ [FdAction.execCmd (cmds.getD i default).argv] ∧
      closedSlots pre = (List.range (2 * cmds.length)).map (fun k => Int.ofNat k)) ∧
    closedSlots (launch_process_chain_parent_closes cmds.length) =
      (List.range (cmds.length * 2)).map (fun k => Int.ofNat k) := by
  constructor
  · exact closedSlots_child _ _ _ _ _ _
  · rw [launch_process_chain_parent_closes, closedSlots_closes]

/-- C2 witness: the first child of a two-stage pipeline closes `fd[0..3]`
before exec, and the parent closes `fd[0..3]`. -/
theorem c2_close_discipline_witness :
    (∃ pre, launch_process_child_actions [tok "a"] none none
        ((launch_process_chain_calls 2).getD 0 (0, 0)).1
        ((launch_process_chain_calls 2).getD 0 (0, 0)).2 2 =
        pre ++ [FdAction.execCmd [tok "a"]] ∧
      closedSlots pre = (List.range 4).map (fun k => Int.ofNat k)) ∧
    closedSlots (launch_process_chain_parent_closes 2) =
      (List.range 4).map (fun k => Int.ofNat k) := by
  have h := c2_close_discipline [{ argv := [tok "a"] }, { argv := [tok "b"] }] (by decide) 0
    (by decide)
  simpa using h

/-- Calling `slice_argv_from_vec(ts, 0, idx)` with no index wrap copies tokens
`0 .. idx`. -/
theorem slice_zero_eq_take (ts : List Token) (idx : Nat) (h : idx + 2 < U64) :
    slice_argv_from_vec ts 0 idx = ts.take (idx + 1) := by
  unfold slice_argv_from_vec
  rw [Nat.mod_eq_of_lt (by omega)]
  simp

/-- Calling `slice_argv_from_vec(ts, start, idx - 1)` for `1 ≤ idx` copies the tokens
`start .. idx - 1`. -/
theorem slice_usub1_eq_take (ts : List Token) (start idx : Nat) (h1 : 1 ≤ idx)
    (hs : start ≤ idx) (h2 : idx + 1 < U64) :
    slice_argv_from_vec ts start (usub1 idx) = (ts.drop start).take (idx - start) := by
  unfold slice_argv_from_vec usub1
  rw [if_neg (by omega), Nat.mod_eq_of_lt (by omega)]
  congr 1
  omega

/-- On a line of only word tokens the scan loop of `parse_single_command`
takes the default branch everywhere and fills argv with the whole token
range at the final token. -/
theorem parseSingleLoop_words (ts : List Token) (hw : ∀ t ∈ ts, isWordTok t = true) :
    ∀ fuel idx cmd bkg, ts.length - idx < fuel → idx < ts.length →
      parseSingleLoop ts fuel cmd false bkg idx =
        some ((if cmd.argv = none then
          { cmd with argv := some (slice_argv_from_vec ts 0 (ts.length - 1)) } else cmd),
          bkg) := by
  intro fuel
  induction fuel with
  | zero => intro idx cmd bkg hf hi; omega
  | succ fuel ih =>
    intro idx cmd bkg hf hi
    have hmem : ts.getD idx [] ∈ ts := by
      rw [List.getD_eq_getElem ts [] hi]
      exact ts.getElem_mem hi
    have hword : isWordTok (ts.getD idx []) = true := hw _ hmem
    simp only [isWordTok, Bool.not_eq_eq_eq_not, Bool.not_true, Bool.or_eq_false_iff,
      decide_eq_false_iff_not] at hword
    obtain ⟨⟨⟨hw1, hw2⟩, hw3⟩, hw4⟩ := hword
    rw [parseSingleLoop, if_pos hi]
    split
    case h_1 heq => exact absurd heq hw2
    case h_2 heq => exact absurd heq hw3
    case h_3 heq => exact absurd heq hw4
    case h_4 =>
      by_cases hend : idx + 1 = ts.length
      · rw [if_pos ⟨hend, rfl⟩]
        have hi2 : idx = ts.length - 1 := by omega
        cases fuel with
        | zero => omega
        | succ fuel2 =>
          rw [parseSingleLoop]
          rw [if_neg (by omega)]
          rw [hi2]
          by_cases hargv : cmd.argv = none <;> simp [hargv]
      · rw [if_neg (by simp [hend])]
        exact ih (idx + 1) cmd bkg (by omega) (by omega)

/-- C8 (amended): every non-empty token sequence consisting only of word
tokens (zero pipe, redirect and background operators) parses to a single
Command whose argv is exactly the word tokens in order (the NULL
terminator slot being the list end), with no input or output redirect and
the background flag `false`; the empty sequence is a parse error and a
trailing `&` (which is neither a pipe nor a redirect operator) sets the
background flag instead.  The bound on `ts.length` is the `size_t` range
of the vector's element count. -/
theorem c8_word_only_parse (ts : List Token) (h0 : ts ≠ [])
    (hw : ∀ t ∈ ts, isWordTok t = true) (hlen : ts.length + 1 < U64) :
    parse_single_command ts false = some ({ argv := some ts }, false) := by
  unfold parse_single_command
  have hpos : 0 < ts.length := List.length_pos.mpr h0
  rw [if_neg (by omega)]
  rw [parseSingleLoop_words ts hw (ts.length + 1) 0 {} false (by omega) hpos]
  have hargv : ({} : SingleCmd).argv = none := rfl
  rw [if_pos hargv]
  have hsl : slice_argv_from_vec ts 0 (ts.length - 1) = ts := by
    rw [slice_zero_eq_take ts (ts.length - 1) (by omega)]
    have : ts.length - 1 + 1 = ts.length := by omega
    rw [this, List.take_length]
  rw [hsl]

/-- C8 witness: `ls x` parses to the single command `[ls, x]`. -/
theorem c8_word_only_parse_witness :
    parse_single_command [tok "ls", tok "x"] false =
      some ({ argv := some [tok "ls", tok "x"] }, false) :=
  c8_word_only_parse [tok "ls", tok "x"] (by decide) (by decide) (by decide)

theorem headD_take (l : List Token) (k : Nat) (hk : 1 ≤ k) :
    (l.take k).headD [] = l.headD [] := by
  cases l with
  | nil => simp
  | cons a rest => cases k with
    | zero => omega
    | succ k => simp

theorem getD_zero_headD (ts : List Token) : ts.getD 0 [] = ts.headD [] := by
  cases ts <;> rfl

theorem take_pos_ne_nil (l : List Token) (k : Nat) (hk : 1 ≤ k) (hl : l ≠ []) :
    l.take k ≠ [] := by
  apply List.ne_nil_of_length_pos
  rw [List.length_take]
  have := List.length_pos.mpr hl
  omega

theorem parseSingleLoop_good (ts : List Token) (hlen : ts.length + 1 < U64)
    (hw : isWordTok (ts.headD []) = true) :
    ∀ fuel idx cmd seen bkg c b,
      ((cmd.argv = none ∧ seen = false ∧ idx < ts.length) ∨ GoodArgv cmd.argv) →
      parseSingleLoop ts fuel cmd seen bkg idx = some (c, b) →
      GoodArgv c.argv := by
  intro fuel
  induction fuel with
  | zero =>
    intro idx cmd seen bkg c b hinv hres
    simp [parseSingleLoop] at hres
  | succ fuel ih =>
    intro idx cmd seen bkg c b hinv hres
    by_cases hi : idx < ts.length
    · rw [parseSingleLoop, if_pos hi] at hres
      have hts : ts ≠ [] := by
        intro hnil; rw [hnil] at hi; simp at hi
      have hop : ¬ isWordTok (ts.getD idx []) = true →
          GoodArgv (if cmd.argv = none then
            some (slice_argv_from_vec ts 0 (usub1 idx)) else cmd.argv) := by
        intro hnw
        by_cases hargv : cmd.argv = none
        · rw [if_pos hargv]
          have h1 : 1 ≤ idx := by
            rcases Nat.eq_zero_or_pos idx with h0 | h0
            · rw [h0, getD_zero_headD] at hnw
              exact absurd hw hnw
            · omega
          rw [slice_usub1_eq_take ts 0 idx h1 (by omega) (by omega)]
          rw [List.drop_zero]
          exact ⟨_, rfl, take_pos_ne_nil ts idx h1 hts,
            (headD_take ts idx h1).symm ▸ hw⟩
        · rw [if_neg hargv]
          rcases hinv with ⟨ha, _, _⟩ | hgood
          · exact absurd ha hargv
          · exact hgood
      split at hres
      next heq =>
        split at hres
        · exact absurd hres (by simp)
        · split at hres
          · exact absurd hres (by simp)
          · exact ih _ _ _ _ _ _ (Or.inr (hop (by simp only [isWordTok, heq]; decide))) hres
      next heq =>
        split at hres
        · exact absurd hres (by simp)
        · split at hres
          · exact absurd hres (by simp)
          · exact ih _ _ _ _ _ _ (Or.inr (hop (by simp only [isWordTok, heq]; decide))) hres
      next heq =>
        split at hres
        · exact absurd hres (by simp)
        · exact ih _ _ _ _ _ _ (Or.inr (hop (by simp only [isWordTok, heq]; decide))) hres
      next =>
        split at hres
        next hcond =>
          refine ih _ _ _ _ _ _ (Or.inr ?_) hres
          by_cases hargv : cmd.argv = none
          · rw [if_pos hargv]
            rw [slice_zero_eq_take ts idx (by omega)]
            exact ⟨_, rfl, take_pos_ne_nil ts (idx + 1) (by omega) hts,
              (headD_take ts (idx + 1) (by omega)).symm ▸ hw⟩
          · rw [if_neg hargv]
            rcases hinv with ⟨ha, _, _⟩ | hgood
            · exact absurd ha hargv
            · exact hgood
        next hcond =>
          refine ih _ _ _ _ _ _ ?_ hres
          rcases hinv with ⟨ha, hs, _⟩ | hgood
          · refine Or.inl ⟨ha, hs, ?_⟩
            subst hs
            have : ¬ (idx + 1 = ts.length) := fun he => hcond ⟨he, rfl⟩
            omega
          · exact Or.inr hgood
    · rw [parseSingleLoop, if_neg hi] at hres
      have hc : cmd = c := congrArg Prod.fst (Option.some.inj hres)
      rcases hinv with ⟨_, _, hlt⟩ | hgood
      · omega
      · rw [← hc]
        exact hgood

theorem headD_drop (ts : List Token) (start : Nat) (h : start < ts.length) :
    (ts.drop start).headD [] = ts.getD start [] := by
  rw [List.getD_eq_getElem ts [] h]
  rw [List.drop_eq_getElem_cons h]
  rfl

theorem stage_slice_good (ts : List Token) (start idx : Nat) (hs : start < idx)
    (hl : start < ts.length) (h2 : idx + 1 < U64)
    (hword : isWordTok (ts.getD start []) = true) :
    GoodCmd { argv := slice_argv_from_vec ts start (usub1 idx) } := by
  constructor
  · show slice_argv_from_vec ts start (usub1 idx) ≠ []
    rw [slice_usub1_eq_take ts start idx (by omega) (by omega) h2]
    apply take_pos_ne_nil _ _ (by omega)
    apply List.ne_nil_of_length_pos
    rw [List.length_drop]
    omega
  · show isWordTok ((slice_argv_from_vec ts start (usub1 idx)).headD []) = true
    rw [slice_usub1_eq_take ts start idx (by omega) (by omega) h2]
    rw [headD_take _ _ (by omega), headD_drop ts start hl]
    exact hword

theorem parseMultiLoop_good (ts : List Token) (hlen : ts.length + 1 < U64) :
    ∀ fuel idx start seen acc bkg cmds b,
      (∀ c ∈ acc, GoodCmd c) →
      (seen = true → start < idx ∧ idx ≤ ts.length ∧
        isWordTok (ts.getD start []) = true) →
      parseMultiLoop ts fuel acc bkg start seen idx = MultiResult.ok cmds b →
      ∀ c ∈ cmds, GoodCmd c := by
  intro fuel
  induction fuel with
  | zero =>
    intro idx start seen acc bkg cmds b hacc hseen hres
    simp [parseMultiLoop] at hres
  | succ fuel ih =>
    intro idx start seen acc bkg cmds b hacc hseen hres
    by_cases hi : idx < ts.length
    · rw [parseMultiLoop, if_pos hi] at hres
      split at hres
      next heq =>
        -- the pipe case
        split at hres
        · exact absurd hres (by simp)
        · split at hres
          · exact absurd hres (by simp)
          · split at hres
            · exact absurd hres (by simp)
            · rename_i hseen_t _ _
              have hst : seen = true := by
                cases seen
                · exact absurd rfl hseen_t
                · rfl
              obtain ⟨h1, h2, h3⟩ := hseen hst
              refine ih _ _ _ _ _ _ _ ?_ (by simp) hres
              intro c hc
              rcases List.mem_append.mp hc with hc | hc
              · exact hacc c hc
              · rw [List.mem_singleton.mp hc]
                exact stage_slice_good ts start idx h1 (by omega) (by omega) h3
      next heq => exact absurd hres (by simp)
      next heq =>
        -- the output redirect case
        split at hres
        · exact absurd hres (by simp)
        · split at hres
          · exact absurd hres (by simp)
          · split at hres
            · exact absurd hres (by simp)
            · split at hres
              · exact absurd hres (by simp)
              · rename_i hseen_t _ _ _
                have hst : seen = true := by
                  cases seen
                  · exact absurd rfl hseen_t
                  · rfl
                obtain ⟨h1, h2, h3⟩ := hseen hst
                refine ih _ _ _ _ _ _ _ ?_ (by simp) hres
                intro c hc
                rcases List.mem_append.mp hc with hc | hc
                · exact hacc c hc
                · rw [List.mem_singleton.mp hc]
                  refine ⟨?_, ?_⟩
                  · have := (stage_slice_good ts start idx h1 (by omega) (by omega) h3).1
                    exact this
                  · have := (stage_slice_good ts start idx h1 (by omega) (by omega) h3).2
                    exact this
      next heq =>
        -- the background case
        split at hres
        · exact absurd hres (by simp)
        · refine ih _ _ _ _ _ _ _ ?_ (by simp) hres
          split
          · rename_i hst
            obtain ⟨h1, h2, h3⟩ := hseen hst
            intro c hc
            rcases List.mem_append.mp hc with hc | hc
            · exact hacc c hc
            · rw [List.mem_singleton.mp hc]
              exact stage_slice_good ts start idx h1 (by omega) (by omega) h3
          · exact hacc
      next hq1 hq2 hq3 hq4 =>
        -- the default (word) case
        cases seen with
        | false =>
          rw [if_neg (by simp)] at hres
          refine ih _ _ _ _ _ _ _ hacc ?_ hres
          intro _
          refine ⟨by omega, by omega, ?_⟩
          unfold isWordTok
          rw [decide_eq_false hq1, decide_eq_false hq2, decide_eq_false hq3,
            decide_eq_false hq4]
          rfl
        | true =>
          rw [if_pos rfl] at hres
          refine ih _ _ _ _ _ _ _ hacc ?_ hres
          intro _
          obtain ⟨h1, h2, h3⟩ := hseen rfl
          exact ⟨by omega, by omega, h3⟩
    · rw [parseMultiLoop, if_neg hi] at hres
      split at hres
      · rename_i hst
        obtain ⟨h1, h2, h3⟩ := hseen hst
        have hok : acc ++ [{ argv := slice_argv_from_vec ts start (usub1 idx) }] = cmds := by
          have := MultiResult.ok.inj hres
          exact this.1
        rw [← hok]
        intro c hc
        rcases List.mem_append.mp hc with hc | hc
        · exact hacc c hc
        · rw [List.mem_singleton.mp hc]
          exact stage_slice_good ts start idx h1 (by omega) (by omega) h3
      · have hok : acc = cmds := (MultiResult.ok.inj hres).1
        rw [← hok]
        exact hacc

/-- The initial seek stops inside the vector when it stops at all. -/
theorem seekStop_some_lt (ts : List Token) :
    ∀ i, seekStop ts = some i → i < ts.length := by
  induction ts with
  | nil => intro i h; simp [seekStop] at h
  | cons t rest ih =>
    intro i h
    rw [seekStop] at h
    split at h
    · injection h with h2
      simp only [List.length_cons]
      omega
    · simp only [Option.map_eq_some'] at h
      obtain ⟨j, hj, hji⟩ := h
      have := ih j hj
      simp only [List.length_cons]
      omega

/-- When the line starts with a word token the initial seek stops at index
1 or later. -/
theorem seekStop_pos_of_word (ts : List Token) (hw : isWordTok (ts.headD []) = true) :
    ∀ i, seekStop ts = some i → 1 ≤ i := by
  cases ts with
  | nil => intro i h; simp [seekStop] at h
  | cons t rest =>
    intro i h
    rw [seekStop] at h
    rw [if_neg ?_] at h
    · simp only [Option.map_eq_some'] at h
      obtain ⟨j, _, hji⟩ := h
      omega
    · simp only [List.headD_cons] at hw
      simp only [isWordTok, Bool.not_eq_eq_eq_not, Bool.not_true, Bool.or_eq_false_iff,
        decide_eq_false_iff_not] at hw
      obtain ⟨⟨⟨hw1, hw2⟩, hw3⟩, hw4⟩ := hw
      simp [hw1, hw2, hw3, hw4]

/-- C6 (amended): whenever the token sequence begins with a word token, every
Command finalized by a successful parse — the single command of
`parse_single_command` and every stage of `parse_multiple_commands` — has
a non-NULL, non-empty argv whose first entry is a word token.  Each
Command carries at most one input and at most one output redirect by
construction (`command_t` has a single `src` and a single `dest` pointer,
embedded as the `Option` fields of `SingleCmd`/`Cmd`).  When the first
token is an operator the invariant fails: `parse_single_command` on the
lone token `&` succeeds with an empty argv. -/
theorem c6_finalized_command_invariant (ts : List Token) (bkg : Bool) (h0 : ts ≠ [])
    (hw : isWordTok (ts.headD []) = true) (hlen : ts.length + 1 < U64) :
    (∀ cmd b, parse_single_command ts bkg = some (cmd, b) → GoodArgv cmd.argv) ∧
    (∀ cmds b, parse_multiple_commands ts bkg = MultiResult.ok cmds b →
      ∀ c ∈ cmds, GoodCmd c) := by
  have hpos : 0 < ts.length := List.length_pos.mpr h0
  constructor
  · intro cmd b hres
    unfold parse_single_command at hres
    rw [if_neg (by omega)] at hres
    exact parseSingleLoop_good ts hlen hw _ _ _ _ _ _ _
      (Or.inl ⟨rfl, rfl, hpos⟩) hres
  · intro cmds b hres
    unfold parse_multiple_commands at hres
    split at hres
    · exact absurd hres (by simp)
    next i hseek =>
      have hlt : i < ts.length := seekStop_some_lt ts i hseek
      have hge : 1 ≤ i := seekStop_pos_of_word ts hw i hseek
      have hgood0 : GoodArgv (some (slice_argv_from_vec ts 0 (usub1 i))) := by
        rw [slice_usub1_eq_take ts 0 i hge (by omega) (by omega), List.drop_zero]
        exact ⟨_, rfl, take_pos_ne_nil ts i hge h0,
          (headD_take ts i hge).symm ▸ hw⟩
      obtain ⟨l0, hl0, hl0ne, hl0w⟩ := hgood0
      have hl0' : slice_argv_from_vec ts 0 (usub1 i) = l0 := Option.some.inj hl0
      split at hres
      · exact absurd hres (by simp)
      · split at hres
        · -- first stage consumes `< file` and the anticipated pipe
          refine parseMultiLoop_good ts hlen _ _ _ _ _ _ _ _ ?_
            (by intro h; exact absurd h (by simp)) hres
          intro c hc
          rw [List.mem_singleton.mp hc]
          exact ⟨by rw [hl0']; exact hl0ne, by rw [hl0']; exact hl0w⟩
        · refine parseMultiLoop_good ts hlen _ _ _ _ _ _ _ _ ?_
            (by intro h; exact absurd h (by simp)) hres
          intro c hc
          rw [List.mem_singleton.mp hc]
          exact ⟨by rw [hl0']; exact hl0ne, by rw [hl0']; exact hl0w⟩

/-- C6 counterexample-side witness: for the word-initial line `a &` the
parsed command has the non-empty argv `[a]` headed by a word. -/
theorem c6_finalized_command_invariant_witness :
    GoodArgv ({ argv := some [tok "a"] } : SingleCmd).argv :=
  (c6_finalized_command_invariant [tok "a", tok "&"] false (by decide) (by decide)
    (by decide)).1 { argv := some [tok "a"] } true (by decide)

/-- Lexing one token never touches `global_bkg_proc`. -/
theorem lexer_step_bkg (g : Globals) (tk : Token) :
    (lexer_step g tk).bkg_proc = g.bkg_proc := by
  unfold lexer_step
  split_ifs <;> rfl

/-- The lexer pass never touches `global_bkg_proc`. -/
theorem lexFold_bkg (ts : List Token) :
    ∀ g : Globals, (List.foldl lexer_step g ts).bkg_proc = g.bkg_proc := by
  induction ts with
  | nil => intro g; rfl
  | cons t rest ih =>
    intro g
    rw [List.foldl_cons, ih, lexer_step_bkg]

/-- The reset of `shell_read` plus lexing leaves `global_bkg_proc` unchanged. -/
theorem shell_read_lex_bkg (ts : List Token) (g : Globals) :
    (shell_read_lex ts g).bkg_proc = g.bkg_proc := by
  unfold shell_read_lex
  rw [lexFold_bkg]

/-- One lexer step is determined, on the parse-relevant fields, by those same
fields. -/
theorem lexer_step_rel (g1 g2 : Globals) (tk : Token) (h : gRel g1 = gRel g2) :
    gRel (lexer_step g1 tk) = gRel (lexer_step g2 tk) := by
  obtain ⟨a1, b1, c1, d1, e1, f1⟩ := g1
  obtain ⟨a2, b2, c2, d2, e2, f2⟩ := g2
  simp only [gRel, Prod.mk.injEq] at h
  obtain ⟨rfl, rfl, rfl, rfl, rfl⟩ := h
  unfold lexer_step
  split_ifs <;> rfl

/-- The fold of lexer steps is determined, on the parse-relevant fields, by
those same fields. -/
theorem lexFold_rel (ts : List Token) :
    ∀ g1 g2 : Globals, gRel g1 = gRel g2 →
      gRel (List.foldl lexer_step g1 ts) = gRel (List.foldl lexer_step g2 ts) := by
  induction ts with
  | nil => intro g1 g2 h; exact h
  | cons t rest ih =>
    intro g1 g2 h
    rw [List.foldl_cons, List.foldl_cons]
    exact ih _ _ (lexer_step_rel g1 g2 t h)

/-- After the per-line reset and re-lex, the parse-relevant context depends
only on the token sequence and the incoming `global_bkg_proc`. -/
theorem shell_read_lex_rel (ts : List Token) (g1 g2 : Globals)
    (hb : g1.bkg_proc = g2.bkg_proc) :
    gRel (shell_read_lex ts g1) = gRel (shell_read_lex ts g2) := by
  unfold shell_read_lex
  apply lexFold_rel
  obtain ⟨a1, b1, c1, d1, e1, f1⟩ := g1
  obtain ⟨a2, b2, c2, d2, e2, f2⟩ := g2
  simp only [gRel, Prod.mk.injEq, eq_self_iff_true, true_and]
  exact hb

/-- The parse outcome of `shell_eval` depends only on the token sequence and
the parse-relevant global fields (not on `global_num_pipes`). -/
theorem shell_eval_fst_rel (ts : List Token) (g1 g2 : Globals) (h : gRel g1 = gRel g2) :
    (shell_eval_model ts g1).1 = (shell_eval_model ts g2).1 := by
  obtain ⟨a1, b1, c1, d1, e1, f1⟩ := g1
  obtain ⟨a2, b2, c2, d2, e2, f2⟩ := g2
  simp only [gRel, Prod.mk.injEq] at h
  obtain ⟨rfl, rfl, rfl, rfl, rfl⟩ := h
  simp only [shell_eval_model, parse_builtin_cmds]
  split_ifs <;>
    first
      | rfl
      | (exact absurd ‹_› ‹_›)
      | (rcases parse_single_command ts e1 with _ | ⟨c, b⟩ <;> rfl)
      | (rcases parse_multiple_commands ts e1 with _ | _ | ⟨cs, b⟩ <;> rfl)

/-- Starting a line with `global_bkg_proc = false`, the flag is false again
after `shell_eval` finishes: launched lines consume it and all other paths
leave it untouched. -/
theorem shell_eval_bkg_false (ts : List Token) (g : Globals) (h : g.bkg_proc = false) :
    ((shell_eval_model ts g).2).bkg_proc = false := by
  unfold shell_eval_model
  split_ifs <;>
    first
      | exact h
      | (rcases parse_single_command ts g.bkg_proc with _ | ⟨c, b⟩
         · exact h
         · rfl)
      | (rcases parse_multiple_commands ts g.bkg_proc with _ | _ | ⟨cs, b⟩
         · exact h
         · exact h
         · rfl)

/-- C9: re-parsing the same token sequence in two consecutive read-eval
iterations yields structurally equal outcomes — the same Command data,
redirects and background flag — because `shell_read` re-derives
`global_num_commands`, `global_num_builtins` and the builtin indices from
the line, the parsers read no other global state, and a consumed
background flag is false again before the next line.  The hypothesis is
the main-loop invariant that `global_bkg_proc` is false when a line is
read (it starts false and `shell_eval` consumes it). -/
theorem c9_reparse_idempotent (ts : List Token) (g : Globals)
    (hb : g.bkg_proc = false) :
    (read_eval_step ts g).1 = (read_eval_step ts ((read_eval_step ts g).2)).1 := by
  unfold read_eval_step
  apply shell_eval_fst_rel
  apply shell_read_lex_rel
  rw [hb]
  rw [shell_eval_bkg_false ts (shell_read_lex ts g) (by rw [shell_read_lex_bkg, hb])]

/-- C9 witness: a concrete polluted context (stale counts, stale builtin
tags, stale pipe count) parses `a | b` identically on two consecutive
iterations. -/
theorem c9_reparse_idempotent_witness :
    (read_eval_step [tok "a", tok "|", tok "b"] ⟨7, 2, 1, 0, false, 5⟩).1 =
      (read_eval_step [tok "a", tok "|", tok "b"]
        ((read_eval_step [tok "a", tok "|", tok "b"] ⟨7, 2, 1, 0, false, 5⟩).2)).1 :=
  c9_reparse_idempotent [tok "a", tok "|", tok "b"] ⟨7, 2, 1, 0, false, 5⟩ rfl
